import Mathlib

/-!
Verification of the GoMarble MCP bridge client (`server-eventsource.js` and the
bridge server module): the event-stream transport parser, the request
correlator, the session state machine's settlement guard and initialize
backoff loop, the session retry wrapper, the call serializer, and the mutable
bearer-credential state.  Each component is shallowly embedded as executable
Lean definitions translated from the JavaScript source; machine strings are
`List Char`, wall-clock times and delays are exact rationals (every quantity
the code computes -- 500 * 1.5^k capped at 3000 -- is exactly representable in
IEEE doubles, so `ℚ` is a faithful model of the arithmetic).
-/

/-- Boolean test that `n` is a leading segment of `h` (JS `String.startsWith`). -/
def startsWithL : List Char → List Char → Bool
  | [], _ => true
  | _ :: _, [] => false
  | a :: as, b :: bs => a == b && startsWithL as bs

/-- Boolean substring test (JS `String.includes`). -/
def containsL (n : List Char) : List Char → Bool
  | [] => startsWithL n []
  | c :: cs => startsWithL n (c :: cs) || containsL n cs

/-- Characters removed by JS `String.trim` at either end (the common ones). -/
def wsChar (c : Char) : Bool := c == ' ' || c == '\t' || c == '\n' || c == '\r'

/-- JS `String.trim`: drop whitespace from both ends. -/
def trimChars (s : List Char) : List Char :=
  ((s.dropWhile wsChar).reverse.dropWhile wsChar).reverse

namespace SSE

/-- Tag classifying an `event:` line (`server-eventsource.js`, line 76). -/
def eventTag : List Char := ['e', 'v', 'e', 'n', 't', ':']

/-- Tag classifying a `data:` line (`server-eventsource.js`, line 78). -/
def dataTag : List Char := ['d', 'a', 't', 'a', ':']

/-- Default event name `"message"` (`server-eventsource.js`, line 66). -/
def msgDefault : List Char := ['m', 'e', 's', 's', 'a', 'g', 'e']

/-- The line-parser registers of the `res.on('data')` handler, minus the
partial-line buffer: current event name, current data accumulator, and the
stream events emitted so far (`_emit` calls, oldest first). -/
structure Core where
  currentEvent : List Char
  currentData : List Char
  events : List (List Char × List Char)
deriving DecidableEq

/-- Full parser state: line registers plus the partial-line buffer. -/
structure Parser where
  core : Core
  buffer : List Char
deriving DecidableEq

/-- Processing of one complete line, translated from the `for (const line of
lines)` body in `server-eventsource.js` lines 75-88: an `event:` line sets the
pending event name (trimmed), a `data:` line sets the pending payload
(trimmed, last value wins), a blank line emits a stream event when the payload
accumulator is non-empty (JS truthiness of `currentData`) and resets the
registers; any other line is ignored. -/
def lineStep (st : Core) (line : List Char) : Core :=
  if line.take 6 = eventTag then
    { st with currentEvent := trimChars (line.drop 6) }
  else if line.take 5 = dataTag then
    { st with currentData := trimChars (line.drop 5) }
  else if line = [] then
    if st.currentData = [] then st
    else
      { currentEvent := msgDefault
        currentData := []
        events := st.events ++ [(st.currentEvent, st.currentData)] }
  else st

/-- Split a character stream at newline boundaries: the complete lines (without
their terminators) and the trailing partial line.  This is
`buffer.split('\n')` followed by `buffer = lines.pop()` in
`server-eventsource.js` lines 72-73. -/
def splitNl : List Char → List (List Char) × List Char
  | [] => ([], [])
  | c :: cs =>
      let p := splitNl cs
      if c = '\n' then ([] :: p.1, p.2)
      else
        match p.1 with
        | [] => ([], c :: p.2)
        | l :: ls => ((c :: l) :: ls, p.2)

/-- One `res.on('data')` chunk callback (`server-eventsource.js` lines 70-89):
append the chunk to the buffer, split off the complete lines, keep the
trailing partial line as the new buffer, and run the line parser over the
complete lines in order. -/
def feedChunk (st : Parser) (chunk : List Char) : Parser :=
  let p := splitNl (st.buffer ++ chunk)
  ⟨p.1.foldl lineStep st.core, p.2⟩

/-- Deliver a sequence of chunks to the parser in order. -/
def feedChunks (st : Parser) (chunks : List (List Char)) : Parser :=
  chunks.foldl feedChunk st

/-- Parser state right after the stream opens (`server-eventsource.js` lines
65-67): empty buffer, default event name, empty data accumulator. -/
def parserInit : Parser := ⟨⟨msgDefault, [], []⟩, []⟩

/-- Character-at-a-time presentation of `feedChunk`, used to settle how chunk
boundaries interact with the buffer: a newline completes the buffered line and
runs the line parser on it, any other character is appended to the buffer. -/
def feedChar (st : Parser) (c : Char) : Parser :=
  if c = '\n' then ⟨lineStep st.core st.buffer, []⟩
  else ⟨st.core, st.buffer ++ [c]⟩

/-- The wire form of one well-formed frame: an `event:` line, a `data:` line,
and a blank delimiter line. -/
def serializeFrame (f : List Char × List Char) : List Char :=
  eventTag ++ f.1 ++ '\n' :: (dataTag ++ f.2 ++ '\n' :: '\n' :: [])

/-- A frame the spec calls well-formed: no embedded newlines, a non-empty
payload (an empty `data:` payload is JS-falsy and emits nothing), and a name
and payload that are fixed by trimming, so the emitted pair is the frame
itself. -/
def wfFrame (f : List Char × List Char) : Prop :=
  '\n' ∉ f.1 ∧ '\n' ∉ f.2 ∧ f.2 ≠ [] ∧ trimChars f.1 = f.1 ∧ trimChars f.2 = f.2

instance (f : List Char × List Char) : Decidable (wfFrame f) := by
  unfold wfFrame; infer_instance

end SSE

/-- Model of JavaScript values seen by the bridge (parsed JSON frames and the
values the session resolves with).  `undefined` models JS `undefined`, which is
not itself JSON but arises from missing-property access. -/
inductive JVal where
  | null
  | undefined
  | bool (b : Bool)
  | num (q : ℚ)
  | str (s : List Char)
  | arr (elems : List JVal)
  | obj (fields : List (List Char × JVal))

namespace Corr

/-- Actions the correlator state reacts to, from `mcpSessionCall`:
registration of a pending request (the `pending.set` in `postRpc`, lines
114-121, together with arming its 30s timeout), arrival of a parsed `message`
frame (lines 93-102; `id` is `none` when the payload has no usable id), the
firing of a request's uncancelled timeout (lines 114-117), and the
early-failure path of the POST itself (lines 127-139: non-2xx status or fetch
rejection, which clears the timer, removes the entry and rejects). -/
inductive Action where
  | register (id : Nat)
  | frame (id : Option Nat) (resp : JVal)
  | timeoutFire (id : Nat)
  | postFail (id : Nat)

/-- Correlator state: the keys of the `pending` map, the ids whose 30-second
timeout is still armed (neither cleared nor fired), the effective resolutions
(promise fulfilled with a frame payload, in order), and the effective
rejections (timeout or POST failure, in order).  A JS promise settles at most
once, so a resolution or rejection is recorded only if the id has not settled
before; in the source this guard is promise semantics itself. -/
structure State where
  pending : List Nat
  armed : List Nat
  settledR : List (Nat × JVal)
  settledE : List Nat

def State.isSettled (st : State) (id : Nat) : Prop :=
  id ∈ st.settledR.map Prod.fst ∨ id ∈ st.settledE

instance (st : State) (id : Nat) : Decidable (st.isSettled id) := by
  unfold State.isSettled; infer_instance

/-- One correlator transition, translated from `mcpSessionCall`:
`register` is `pending.set(id, ...)` plus `setTimeout` (lines 114-121);
`frame` is the `message` listener (lines 93-102), which resolves and deletes
only when `data.id != null && pending.has(data.id)` -- the stored resolver
also clears the timeout (line 120); `timeoutFire` is the timeout callback
(which can only run while the timer is armed) deleting the entry and
rejecting; `postFail` is the POST error path, clearing the timer, deleting
the entry and rejecting. -/
def step (st : State) (a : Action) : State :=
  match a with
  | .register id => ⟨id :: st.pending, id :: st.armed, st.settledR, st.settledE⟩
  | .frame none _ => st
  | .frame (some id) r =>
      if id ∈ st.pending then
        ⟨st.pending.erase id, st.armed.erase id,
          if st.isSettled id then st.settledR else st.settledR ++ [(id, r)],
          st.settledE⟩
      else st
  | .timeoutFire id =>
      if id ∈ st.armed then
        ⟨st.pending.erase id, st.armed.erase id, st.settledR,
          if st.isSettled id then st.settledE else st.settledE ++ [id]⟩
      else st
  | .postFail id =>
      ⟨st.pending.erase id, st.armed.erase id, st.settledR,
        if st.isSettled id then st.settledE else st.settledE ++ [id]⟩

def run (st : State) (tr : List Action) : State := tr.foldl step st

/-- Fresh correlator of one session attempt: `const pending = new Map()`. -/
def init : State := ⟨[], [], [], []⟩

/-- Trace validity: a registration uses an id that is not already pending and
has not already settled.  In the source this holds because each `postRpc`
call uses a fresh JSON-RPC id (1 for `initialize`, 2 for the tool call)
within its session's map. -/
def validFrom (st : State) : List Action → Bool
  | [] => true
  | a :: rest =>
      (match a with
       | .register id =>
           decide (id ∉ st.pending) && decide (¬ st.isSettled id)
       | _ => true) && validFrom (step st a) rest

/-- Invariant tying the correlator state together: the pending map and the
armed timers cover the same ids (every path that removes one removes the
other), pending ids are unsettled, pending ids are distinct, and no id ever
settles twice. -/
structure Inv (st : State) : Prop where
  pa : st.pending = st.armed
  fresh : ∀ id ∈ st.pending, ¬ st.isSettled id
  nd : st.pending.Nodup
  once : (st.settledR.map Prod.fst ++ st.settledE).Nodup

end Corr

namespace Session

/-- A settlement request: resolving the caller's promise with a value or
rejecting it with an error message. -/
inductive SettleVal where
  | resolved (v : JVal)
  | rejected (msg : List Char)

/-- Observable resource state of one `mcpSessionCall` run: the one-shot
`settled` flag, whether `es` is still non-null and whether `timer` is still
non-null, instrumentation counters for how many times `es.close()` and
`clearTimeout(timer)` have run, and the settlement delivered to the caller's
promise (`none` while unsettled; a promise keeps its first settlement). -/
structure Resources where
  settled : Bool
  esOpen : Bool
  timerSet : Bool
  closeCount : Nat
  clearCount : Nat
  outcome : Option SettleVal

/-- The `settle` helper of `mcpSessionCall` (lines 59-65): a no-op when
already settled; otherwise it sets the flag, closes and nulls the stream if
non-null, clears and nulls the timer if non-null, and only then invokes the
resolve/reject continuation. -/
def settle (st : Resources) (v : SettleVal) : Resources :=
  if st.settled then st
  else
    { settled := true
      esOpen := false
      timerSet := false
      closeCount := st.closeCount + (if st.esOpen then 1 else 0)
      clearCount := st.clearCount + (if st.timerSet then 1 else 0)
      outcome := some v }

/-- Resource state after the synchronous setup of `mcpSessionCall` (lines
57-80): the deadline timer armed and the EventSource created before any
callback (timer, endpoint listener, error listener) can run, nothing closed
or settled yet.  `settle` is the only place the session's stream is closed or
its deadline timer cleared. -/
def resourcesInit : Resources := ⟨false, true, true, 0, 0, none⟩

/-- A run of the session is, as far as settlement is concerned, the sequence
of `settle` invocations their triggering callbacks make (deadline timer,
connection-error listener, initialize-chain rejection, protocol error,
success), in program order. -/
def runSettles (st : Resources) (vs : List SettleVal) : Resources :=
  vs.foldl settle st

end Session

namespace Init

/-- Patterns classifying a caught error as "transport not ready" inside the
`doInitialize` polling loop (line 206): the error message contains
`"No transport found"` or `"POST 400"`. -/
def noTransportPat : List Char := "No transport found".toList

def post400Pat : List Char := "POST 400".toList

/-- The transport-not-ready classification of `doInitialize` (line 206). -/
def isTransportErr (m : List Char) : Bool :=
  containsL noTransportPat m || containsL post400Pat m

/-- The fallback error thrown when the deadline is exceeded with no recorded
error (line 216). -/
def neverReadyMsg : List Char := "Transport never became ready".toList

/-- The backoff delay before the (n+1)-th readiness attempt: `delay` starts at
500 and is updated by `delay = Math.min(delay * 1.5, 3000)` (lines 155, 209).
All values are dyadic rationals, exactly representable in JS doubles. -/
def delaySeq : Nat → ℚ
  | 0 => 500
  | n + 1 => min (delaySeq n * (3 / 2)) 3000

/-- Outcome of one iteration body of the polling loop, as supplied by the
environment: the awaited `initialize` round-trip (and everything after it in
the `try` block) either lets the body run to completion (`bodyDone`), or
throws an error with the given message (`bodyErr`) -- a protocol error
(`MCP error c: m`), a correlator timeout, a POST failure, or a transport
not-ready rejection are all delivered this way, exactly as the single `catch`
in lines 204-214 sees them. -/
inductive BodyStep where
  | bodyDone
  | bodyErr (msg : List Char)

/-- Result of a `doInitialize` run: the body completed (initialization
succeeded and the attempt moved on), an error was rethrown immediately
(`fatal`, line 213), the wall-clock deadline was exceeded and line 216 threw
(`deadline`), or the supplied environment was too short to settle the run
(model artifact; never reached in the theorems' hypotheses). -/
inductive Result where
  | finished
  | fatal (msg : List Char)
  | deadline (msg : List Char)
  | outOfEnv

/-- Trace of one `doInitialize` run: the elapsed times at which the `while`
guard passed (line 158), the backoff delays awaited (line 159), the
transport-classified error messages recorded into `lastErr` (in order), and
the result. -/
structure Run where
  checks : List ℚ
  waits : List ℚ
  errs : List (List Char)
  result : Result

/-- The readiness-polling loop of `doInitialize` (lines 152-216), with the
loop entry time normalized to 0 so `now` is `Date.now() - start`.  Each
environment entry supplies one iteration body's outcome together with the
wall-clock duration of that body; the loop guard admits an iteration only
while under the 20-second deadline, each iteration first awaits the current
backoff delay, a transport-classified error records `lastErr` and continues
with the bumped delay, any other error is rethrown, and on guard failure the
loop throws `lastErr` when one was recorded -- the literal
`Transport never became ready` error only when none was. -/
def doInitLoop (now delay : ℚ) (lastErr : Option (List Char)) :
    List (BodyStep × ℚ) → Run
  | [] =>
    if now < 20000 then ⟨[now], [delay], [], .outOfEnv⟩
    else
      ⟨[], [], [],
        .deadline (match lastErr with | some m => m | none => neverReadyMsg)⟩
  | (step, dur) :: rest =>
    if now < 20000 then
      match step with
      | .bodyDone => ⟨[now], [delay], [], .finished⟩
      | .bodyErr m =>
          if isTransportErr m then
            let r := doInitLoop (now + delay + dur) (min (delay * (3 / 2)) 3000)
              (some m) rest
            ⟨now :: r.checks, delay :: r.waits, m :: r.errs, r.result⟩
          else ⟨[now], [delay], [], .fatal m⟩
    else
      ⟨[], [], [],
        .deadline (match lastErr with | some m => m | none => neverReadyMsg)⟩

end Init

namespace Retry

/-- Result of one whole `mcpSessionCall` attempt as the retry wrapper sees it:
the session promise fulfilled with a value, or rejected with an error whose
message drives classification. -/
inductive SessionOutcome where
  | ok (v : JVal)
  | err (msg : List Char)

/-- What `mcpToolCall` produces: the first successful attempt's value, a
propagated error, `undefined` when the `for` loop finishes without ever running
its body (the async function falls through and resolves with `undefined`), or
`pendingEnv` when the supplied environment has fewer outcomes than the loop
consumes (model artifact; never reached in the theorems' hypotheses). -/
inductive CallResult where
  | ok (v : JVal)
  | err (msg : List Char)
  | undefined
  | pendingEnv

/-- Trace of one `mcpToolCall` run: its result, how many session attempts ran,
and the inter-attempt delays awaited, in order. -/
structure CallRun where
  result : CallResult
  attemptsUsed : Nat
  delays : List ℚ

/-- The transient-error classification of `mcpToolCall` (lines 227-230): the
error message contains `"No transport found"`, `"POST 400"`, `"SSE"` or
`"Transport never"`. -/
def isTransient (m : List Char) : Bool :=
  containsL Init.noTransportPat m || containsL Init.post400Pat m ||
    containsL "SSE".toList m || containsL "Transport never".toList m

/-- The protocol-error message built by `mcpSessionCall` when a response frame
carries an `error{code,message}` field (lines 169 and 187):
`MCP error <code>: <message>`. -/
def protocolErrMsg (code msg : List Char) : List Char :=
  "MCP error ".toList ++ code ++ ": ".toList ++ msg

/-- The retry loop of `mcpToolCall` (lines 222-240), driven by an environment
listing the outcome of each session attempt in order.  `attempt` is the loop
counter; `maxRetries` is modelled as an integer so that non-positive values
are covered.  A successful attempt returns its value; a failed attempt is
retried after `3000 * (attempt + 1)` ms only when its message is classified
transient and another attempt remains; otherwise the error is rethrown
unchanged.  When the guard fails the loop ends and the function resolves with
`undefined`. -/
def mcpRun (attempt : Nat) (maxRetries : Int) : List SessionOutcome → CallRun
  | [] =>
    if (attempt : Int) < maxRetries then ⟨.pendingEnv, 0, []⟩
    else ⟨.undefined, 0, []⟩
  | o :: rest =>
    if (attempt : Int) < maxRetries then
      match o with
      | .ok v => ⟨.ok v, 1, []⟩
      | .err m =>
          if isTransient m && decide ((attempt : Int) < maxRetries - 1) then
            let r := mcpRun (attempt + 1) maxRetries rest
            ⟨r.result, r.attemptsUsed + 1, (3000 * ((attempt : ℚ) + 1)) :: r.delays⟩
          else ⟨.err m, 1, []⟩
    else ⟨.undefined, 0, []⟩

end Retry

/-- The protocol-error message of a response carrying
`error:{code:-32000, message:"SSE broken"}`, as `mcpSessionCall` renders it. -/
def cexProtoMsg : List Char :=
  Retry.protocolErrMsg "-32000".toList "SSE broken".toList

/-- A transport-not-ready rejection message, as produced by the `postRpc`
non-2xx path for an HTTP 400 (`POST 400: <body>`). -/
def p400Msg : List Char := "POST 400: Bad Request".toList

namespace Extract

/-- Property keys used by the extraction code (lines 192-201). -/
def resultKey : List Char := ['r', 'e', 's', 'u', 'l', 't']

def contentKey : List Char := ['c', 'o', 'n', 't', 'e', 'n', 't']

def typeKey : List Char := ['t', 'y', 'p', 'e']

def textKey : List Char := ['t', 'e', 'x', 't']

def dataKey : List Char := ['d', 'a', 't', 'a']

/-- JS property access `v[k]` on a parsed JSON value: a missing key, or access
on a non-object, yields `undefined`.  (Parsed JSON objects have effectively
unique keys, so first-match lookup is the JS behavior.) -/
def jsGetFields : List (List Char × JVal) → List Char → JVal
  | [], _ => .undefined
  | (k2, v) :: rest, k => if k2 = k then v else jsGetFields rest k

def jsGet : JVal → List Char → JVal
  | .obj fs, k => jsGetFields fs k
  | _, _ => .undefined

/-- JS truthiness of a value. -/
def truthy : JVal → Bool
  | .null => false
  | .undefined => false
  | .bool b => b
  | .num q => decide (q ≠ 0)
  | .str s => decide (s ≠ [])
  | .arr _ => true
  | .obj _ => true

/-- Whether `?.` short-circuits on the value (JS null or undefined). -/
def nullish : JVal → Bool
  | .null => true
  | .undefined => true
  | _ => false

/-- The entry selection `content.find(c => c.type === 'text')` (line 194):
first entry whose `type` property is the string `text` (strict equality, so a
non-string `type` never matches). -/
def findText : List JVal → Option JVal
  | [] => none
  | e :: rest =>
      (match jsGet e typeKey with
       | .str s => if s = textKey then some e else findText rest
       | _ => findText rest)

/-- Result extraction of `mcpSessionCall` on a successful tool-call response
(lines 192-201), parameterized by `parse`, the platform `JSON.parse` (`none`
models a parse exception): when `result.result?.content` is truthy, find the
first text-typed entry, and if found, parse its string `text` payload --
resolving with the parsed value, or with the wrapper `{data: <text>}` when
parsing throws; in every other case fall back to `result.result || result`.
A truthy non-array `content` would make the JS `.find` call itself throw,
and a text entry carrying a non-string `text` feeds `JSON.parse` a coerced
non-string -- the claims' inputs (hypotheses of the theorems below) never
enter either situation, and both are mapped to the fallback/wrapper here. -/
def extractResult (parse : List Char → Option JVal) (resp : JVal) : JVal :=
  let rr := jsGet resp resultKey
  let content := if nullish rr then JVal.undefined else jsGet rr contentKey
  let fallback := if truthy rr then rr else resp
  if truthy content then
    match content with
    | .arr es =>
        (match findText es with
         | some tc =>
             (match jsGet tc textKey with
              | .str s =>
                  (match parse s with
                   | some j => j
                   | none => .obj [(dataKey, .str s)])
              | other => .obj [(dataKey, other)])
         | none => fallback)
    | _ => fallback
  else fallback

end Extract

namespace Queue

/-- Observable events of the `/api/mcp/tool` handler chain: an invocation's
handler starting (its `mcpToolCall` begins, i.e. its first session starts
connecting) and that invocation settling (its try/catch completes and its
response is sent). -/
inductive Ev where
  | enter (r : Nat)
  | settle (r : Nat)
deriving DecidableEq

/-- The HTTP response one caller receives: `res.json(result)` on success or
`res.status(500).json({error})` on failure. -/
inductive Resp where
  | json (v : JVal)
  | e500 (msg : List Char)

/-- The queued callback body for one request (lines 255-265): await the tool
call, respond with its result, and catch any error into a 500 response for
this caller only.  The callback never throws, so the promise it returns to
the chain is always fulfilled. -/
def handle (call : Nat → Retry.SessionOutcome) (r : Nat) : Resp :=
  match call r with
  | .ok v => .json v
  | .err m => .e500 m

/-- The promise chain `callQueue = callQueue.then(...)` (lines 249-266),
processing queued invocations in submission order.  `fulfilled` is the state
of the chain promise: a `.then` callback runs only when the previous link
fulfilled (a rejected chain would skip every later callback, delivering no
response for it); each link runs its handler to completion -- emitting its
enter and settle events and its response -- before the next link runs. -/
def runChain (call : Nat → Retry.SessionOutcome) :
    Bool → List Nat → List Ev × List (Option Resp)
  | _, [] => ([], [])
  | fulfilled, r :: rs =>
      if fulfilled then
        let p := runChain call true rs
        (Ev.enter r :: Ev.settle r :: p.1, some (handle call r) :: p.2)
      else
        let p := runChain call false rs
        (p.1, none :: p.2)

end Queue

namespace Cred

/-- Actions touching the mutable bearer credential: the external
`/api/mcp/reconnect` endpoint replacing `API_KEY` when the request body
carries a truthy `apiKey` (lines 281-287), the EventSource connection fetch
attaching `Authorization: Bearer <API_KEY>` (lines 75-79), and a `postRpc` or
`notify` POST attaching the same header (lines 123-126, 145-148). -/
inductive Action where
  | reconnect (k : List Char)
  | connectFetch
  | postFetch

/-- A credential observed on the wire by one fetch. -/
inductive Use where
  | connectCred (k : List Char)
  | postCred (k : List Char)
deriving DecidableEq

/-- One step of the credential state: `reconnect` with a truthy (non-empty)
key replaces the global; each fetch reads the global at the moment it runs. -/
def keyStep (key : List Char) : Action → List Char × Option Use
  | .reconnect k => (if k = [] then key else k, none)
  | .connectFetch => (key, some (.connectCred key))
  | .postFetch => (key, some (.postCred key))

/-- The credentials sent on the wire by a sequence of actions, given the
current value of the `API_KEY` global. -/
def runCreds (key : List Char) : List Action → List Use
  | [] => []
  | a :: rest =>
      (match (keyStep key a).2 with
       | some u => [u]
       | none => []) ++ runCreds (keyStep key a).1 rest

/-- The `API_KEY` value after a sequence of actions. -/
def keyAfter (key : List Char) : List Action → List Char
  | [] => key
  | a :: rest => keyAfter (keyStep key a).1 rest

end Cred

namespace SSE

theorem splitNl_no_nl (s : List Char) : '\n' ∉ (splitNl s).2 := by
  induction s with
  | nil => simp [splitNl]
  | cons c cs ih =>
      simp only [splitNl]
      by_cases h : c = '\n'
      · simpa [h] using ih
      · cases hp : (splitNl cs).1 with
        | nil =>
            simp only [h, if_neg, hp]
            intro hc
            rcases List.mem_cons.mp hc with h1 | h2
            · exact h h1.symm
            · exact ih h2
        | cons l ls => simpa [h, hp] using ih

theorem splitNl_of_no_nl (s : List Char) (h : '\n' ∉ s) : splitNl s = ([], s) := by
  induction s with
  | nil => simp [splitNl]
  | cons c cs ih =>
      have hc : c ≠ '\n' := fun hh => h (hh ▸ List.mem_cons_self c cs)
      have hcs : '\n' ∉ cs := fun hh => h (List.mem_cons_of_mem _ hh)
      simp [splitNl, hc, ih hcs]

theorem splitNl_append_nl (buf cs : List Char) (h : '\n' ∉ buf) :
    splitNl (buf ++ '\n' :: cs) = (buf :: (splitNl cs).1, (splitNl cs).2) := by
  induction buf with
  | nil => simp [splitNl]
  | cons b bs ih =>
      have hb : b ≠ '\n' := fun hh => h (hh ▸ List.mem_cons_self b bs)
      have hbs : '\n' ∉ bs := fun hh => h (List.mem_cons_of_mem _ hh)
      simp [splitNl, ih hbs, hb]

theorem feedChunk_eq_foldl (chunk : List Char) :
    ∀ st : Parser, '\n' ∉ st.buffer → feedChunk st chunk = chunk.foldl feedChar st := by
  induction chunk with
  | nil =>
      intro st h
      simp [feedChunk, splitNl_of_no_nl st.buffer h, List.foldl]
  | cons c cs ih =>
      intro st h
      by_cases hc : c = '\n'
      · subst hc
        have h1 : feedChunk st ('\n' :: cs) = feedChunk ⟨lineStep st.core st.buffer, []⟩ cs := by
          simp [feedChunk, splitNl_append_nl st.buffer cs h]
        have h2 : feedChar st '\n' = ⟨lineStep st.core st.buffer, []⟩ := by
          simp [feedChar]
        rw [List.foldl_cons, h2, h1, ih ⟨lineStep st.core st.buffer, []⟩ (by simp)]
      · have h1 : feedChunk st (c :: cs) = feedChunk ⟨st.core, st.buffer ++ [c]⟩ cs := by
          simp only [feedChunk]
          have : st.buffer ++ c :: cs = (st.buffer ++ [c]) ++ cs := by simp
          rw [this]
        have h2 : feedChar st c = ⟨st.core, st.buffer ++ [c]⟩ := by
          simp [feedChar, hc]
        have hbuf : '\n' ∉ st.buffer ++ [c] := by
          intro hm
          rcases List.mem_append.mp hm with hm | hm
          · exact h hm
          · simp at hm; exact hc hm.symm
        rw [List.foldl_cons, h2, h1, ih ⟨st.core, st.buffer ++ [c]⟩ hbuf]

theorem feedChunk_buffer_no_nl (st : Parser) (chunk : List Char) :
    '\n' ∉ (feedChunk st chunk).buffer := by
  simp only [feedChunk]
  exact splitNl_no_nl _

theorem feedChunk_append (st : Parser) (a b : List Char) (h : '\n' ∉ st.buffer) :
    feedChunk st (a ++ b) = feedChunk (feedChunk st a) b := by
  rw [feedChunk_eq_foldl (a ++ b) st h, List.foldl_append,
    ← feedChunk_eq_foldl a st h,
    ← feedChunk_eq_foldl b (feedChunk st a) (feedChunk_buffer_no_nl st a)]

theorem feedChunks_eq_flatten (chunks : List (List Char)) :
    ∀ st : Parser, '\n' ∉ st.buffer → feedChunks st chunks = feedChunk st chunks.flatten := by
  induction chunks with
  | nil =>
      intro st h
      simp [feedChunks, feedChunk, splitNl_of_no_nl st.buffer h]
  | cons c cs ih =>
      intro st h
      have : feedChunks st (c :: cs) = feedChunks (feedChunk st c) cs := rfl
      rw [this, ih (feedChunk st c) (feedChunk_buffer_no_nl st c), List.flatten_cons,
        feedChunk_append st c cs.flatten h]

theorem take_six_eventTag_head {l : List Char} (h : l.take 6 = eventTag) :
    l.head? = some 'e' := by
  cases l with
  | nil => simp [eventTag] at h
  | cons a t =>
      rw [show (6 : Nat) = 5 + 1 from rfl, List.take_succ_cons] at h
      simp only [eventTag, List.cons.injEq] at h
      simp [h.1]

theorem lineStep_eventLine (st : Core) (n : List Char) (hn : trimChars n = n) :
    lineStep st (eventTag ++ n) = { st with currentEvent := n } := by
  have ht : (eventTag ++ n).take 6 = eventTag := by
    rw [show (6 : Nat) = eventTag.length from rfl]
    exact List.take_left eventTag n
  have hd : (eventTag ++ n).drop 6 = n := by
    rw [show (6 : Nat) = eventTag.length from rfl]
    exact List.drop_left eventTag n
  simp [lineStep, ht, hd, hn]

theorem lineStep_dataLine (st : Core) (d : List Char) (hd : trimChars d = d) :
    lineStep st (dataTag ++ d) = { st with currentData := d } := by
  have h6 : ¬ (dataTag ++ d).take 6 = eventTag := by
    intro h
    have := take_six_eventTag_head h
    simp [dataTag] at this
  have ht : (dataTag ++ d).take 5 = dataTag := by
    rw [show (5 : Nat) = dataTag.length from rfl]
    exact List.take_left dataTag d
  have hdr : (dataTag ++ d).drop 5 = d := by
    rw [show (5 : Nat) = dataTag.length from rfl]
    exact List.drop_left dataTag d
  simp [lineStep, h6, ht, hdr, hd]

theorem lineStep_blank (st : Core) (h : st.currentData ≠ []) :
    lineStep st [] =
      ⟨msgDefault, [], st.events ++ [(st.currentEvent, st.currentData)]⟩ := by
  have h6 : ¬ ([] : List Char).take 6 = eventTag := by decide
  have h5 : ¬ ([] : List Char).take 5 = dataTag := by decide
  simp only [lineStep, h6, h5, if_false, if_neg h, ite_self, if_true,
    ite_false, ite_true, eq_self_iff_true]

/-- Feeding the bytes of one well-formed frame to a parser whose buffer and
data accumulator are empty emits exactly that frame and returns the registers
to their post-emission reset state. -/
theorem feedChunk_frame (ev : List Char) (evs : List (List Char × List Char))
    (f : List Char × List Char) (hf : wfFrame f) :
    feedChunk ⟨⟨ev, [], evs⟩, []⟩ (serializeFrame f) =
      ⟨⟨msgDefault, [], evs ++ [f]⟩, []⟩ := by
  obtain ⟨hn1, hn2, hne, htr1, htr2⟩ := hf
  have hsplit :
      splitNl ([] ++ serializeFrame f) =
        ([eventTag ++ f.1, dataTag ++ f.2, []], []) := by
    have hA : '\n' ∉ eventTag ++ f.1 := by
      intro hm
      rcases List.mem_append.mp hm with hm | hm
      · simp [eventTag] at hm
      · exact hn1 hm
    have hB : '\n' ∉ dataTag ++ f.2 := by
      intro hm
      rcases List.mem_append.mp hm with hm | hm
      · simp [dataTag] at hm
      · exact hn2 hm
    have e1 : ([] : List Char) ++ serializeFrame f =
        (eventTag ++ f.1) ++ '\n' :: ((dataTag ++ f.2) ++ '\n' :: '\n' :: []) := by
      simp [serializeFrame]
    rw [e1, splitNl_append_nl _ _ hA, splitNl_append_nl _ _ hB]
    simp [splitNl]
  simp only [feedChunk, hsplit]
  rw [List.foldl_cons, List.foldl_cons, List.foldl_cons, List.foldl_nil,
    lineStep_eventLine _ _ htr1, lineStep_dataLine _ _ htr2]
  rw [lineStep_blank _ (by simpa using hne)]

/-- Feeding a whole sequence of well-formed serialized frames from a
post-reset parser state emits exactly those frames, in order, leaving the
buffer and data accumulator empty. -/
theorem feedChunk_frames (frames : List (List Char × List Char)) :
    ∀ ev evs, (∀ f ∈ frames, wfFrame f) →
      ∃ ev', feedChunk ⟨⟨ev, [], evs⟩, []⟩ (frames.map serializeFrame).flatten =
        ⟨⟨ev', [], evs ++ frames⟩, []⟩ := by
  induction frames with
  | nil =>
      intro ev evs _
      refine ⟨ev, ?_⟩
      simp [feedChunk, splitNl]
  | cons f fs ih =>
      intro ev evs hwf
      rw [List.map_cons, List.flatten_cons,
        feedChunk_append ⟨⟨ev, [], evs⟩, []⟩ _ _ (by simp),
        feedChunk_frame ev evs f (hwf f (List.mem_cons_self f fs))]
      obtain ⟨ev', h⟩ := ih msgDefault (evs ++ [f])
        (fun g hg => hwf g (List.mem_cons_of_mem f hg))
      exact ⟨ev', by rw [h]; simp⟩

end SSE

/-- Claim C4: for any sequence of byte chunks whose concatenation forms N
well-formed `event:`/`data:`/blank-line frames (possibly followed by a
trailing partial line with no newline yet), the transport parser emits exactly
those N stream events with the correct (eventName, payload) pairs, no matter
where the chunk boundaries fall -- including mid-line splits -- and the
trailing partial line is retained in the buffer for the next chunk. -/
theorem C4_frame_parsing (frames : List (List Char × List Char))
    (chunks : List (List Char)) (leftover : List Char)
    (hwf : ∀ f ∈ frames, SSE.wfFrame f)
    (hcat : chunks.flatten = (frames.map SSE.serializeFrame).flatten ++ leftover)
    (hleft : '\n' ∉ leftover) :
    (SSE.feedChunks SSE.parserInit chunks).core.events = frames ∧
      (SSE.feedChunks SSE.parserInit chunks).buffer = leftover := by
  rw [SSE.feedChunks_eq_flatten chunks SSE.parserInit (by simp [SSE.parserInit]), hcat,
    SSE.feedChunk_append SSE.parserInit _ _ (by simp [SSE.parserInit])]
  obtain ⟨ev', h⟩ := SSE.feedChunk_frames frames SSE.msgDefault [] hwf
  rw [show SSE.parserInit = ⟨⟨SSE.msgDefault, [], []⟩, []⟩ from rfl, h]
  simp [SSE.feedChunk, SSE.splitNl_of_no_nl leftover hleft]

namespace Corr

theorem inv_init : Inv init := by
  refine ⟨rfl, ?_, ?_, ?_⟩ <;> simp [init, State.isSettled]

theorem nodup_mid (A E : List ℕ) (id : ℕ) (h : (A ++ E).Nodup)
    (h1 : id ∉ A) (h2 : id ∉ E) : (A ++ id :: E).Nodup := by
  rw [List.nodup_middle]
  exact List.nodup_cons.mpr ⟨fun hc => (List.mem_append.mp hc).elim h1 h2, h⟩

theorem nodup_end (A E : List ℕ) (id : ℕ) (h : (A ++ E).Nodup)
    (h1 : id ∉ A) (h2 : id ∉ E) : (A ++ (E ++ [id])).Nodup := by
  rw [← List.append_assoc]
  have := nodup_mid (A ++ E) [] id (by simpa using h)
    (fun hc => (List.mem_append.mp hc).elim h1 h2) (by simp)
  simpa using this

theorem inv_step (st : State) (a : Action) (h : Inv st)
    (hv : match a with
          | .register id => id ∉ st.pending ∧ ¬ st.isSettled id
          | _ => True) : Inv (step st a) := by
  obtain ⟨pa, fresh, nd, once⟩ := h
  cases a with
  | register id =>
      obtain ⟨hnp, hns⟩ := hv
      refine ⟨by simp [step, pa], ?_, ?_, once⟩
      · intro i hi
        rcases List.mem_cons.mp hi with hi | hi
        · simpa [step, State.isSettled, hi] using hns
        · simpa [step, State.isSettled] using fresh i hi
      · exact List.nodup_cons.mpr ⟨hnp, nd⟩
  | frame oid r =>
      cases oid with
      | none => exact ⟨pa, fresh, nd, once⟩
      | some id =>
          by_cases hp : id ∈ st.pending
          · have hset : ¬ st.isSettled id := fresh id hp
            have hsA : id ∉ st.settledR.map Prod.fst := fun hc => hset (Or.inl hc)
            have hsE : id ∉ st.settledE := fun hc => hset (Or.inr hc)
            simp only [step, if_pos hp, if_neg hset]
            refine ⟨by rw [pa], ?_, nd.erase id, ?_⟩
            · intro i hi
              have hi' : i ≠ id ∧ i ∈ st.pending := (nd.mem_erase_iff).mp hi
              have := fresh i hi'.2
              simp only [State.isSettled] at this ⊢
              simp only [List.map_append, List.map_cons, List.map_nil]
              intro hcon
              rcases hcon with hcon | hcon
              · rcases List.mem_append.mp hcon with hcon | hcon
                · exact this (Or.inl hcon)
                · simp at hcon; exact hi'.1 hcon
              · exact this (Or.inr hcon)
            · simp only [List.map_append, List.map_cons, List.map_nil,
                List.append_assoc, List.singleton_append]
              exact nodup_mid _ _ id once hsA hsE
          · have hstep : step st (.frame (some id) r) = st := by
              simp [step, hp]
            rw [hstep]
            exact ⟨pa, fresh, nd, once⟩
  | timeoutFire id =>
      by_cases ha : id ∈ st.armed
      · have hp : id ∈ st.pending := pa ▸ ha
        have hset : ¬ st.isSettled id := fresh id hp
        have hsA : id ∉ st.settledR.map Prod.fst := fun hc => hset (Or.inl hc)
        have hsE : id ∉ st.settledE := fun hc => hset (Or.inr hc)
        simp only [step, if_pos ha, if_neg hset]
        refine ⟨by rw [pa], ?_, nd.erase id, ?_⟩
        · intro i hi
          have hi' : i ≠ id ∧ i ∈ st.pending := (nd.mem_erase_iff).mp hi
          have := fresh i hi'.2
          simp only [State.isSettled] at this ⊢
          intro hcon
          rcases hcon with hcon | hcon
          · exact this (Or.inl hcon)
          · rcases List.mem_append.mp hcon with hcon | hcon
            · exact this (Or.inr hcon)
            · simp at hcon; exact hi'.1 hcon
        · exact nodup_end _ _ id once hsA hsE
      · have hstep : step st (.timeoutFire id) = st := by
          simp [step, ha]
        rw [hstep]
        exact ⟨pa, fresh, nd, once⟩
  | postFail id =>
      by_cases hset : st.isSettled id
      · simp only [step, if_pos hset]
        refine ⟨by rw [pa], ?_, nd.erase id, once⟩
        intro i hi
        exact fresh i (List.mem_of_mem_erase hi)
      · have hsA : id ∉ st.settledR.map Prod.fst := fun hc => hset (Or.inl hc)
        have hsE : id ∉ st.settledE := fun hc => hset (Or.inr hc)
        simp only [step, if_neg hset]
        refine ⟨by rw [pa], ?_, nd.erase id, ?_⟩
        · intro i hi
          have hi' : i ≠ id ∧ i ∈ st.pending := (nd.mem_erase_iff).mp hi
          have := fresh i hi'.2
          simp only [State.isSettled] at this ⊢
          intro hcon
          rcases hcon with hcon | hcon
          · exact this (Or.inl hcon)
          · rcases List.mem_append.mp hcon with hcon | hcon
            · exact this (Or.inr hcon)
            · simp at hcon; exact hi'.1 hcon
        · exact nodup_end _ _ id once hsA hsE

theorem inv_run (tr : List Action) :
    ∀ st : State, Inv st → validFrom st tr = true → Inv (run st tr) := by
  induction tr with
  | nil => intro st h _; exact h
  | cons a rest ih =>
      intro st h hv
      simp only [validFrom, Bool.and_eq_true] at hv
      refine ih (step st a) (inv_step st a h ?_) hv.2
      cases a with
      | register id =>
          have := hv.1
          simp only [Bool.and_eq_true, decide_eq_true_eq] at this
          exact this
      | frame oid r => trivial
      | timeoutFire id => trivial
      | postFail id => trivial

/-- Every effective resolution originates from a frame action in the trace
carrying exactly that id and payload. -/
theorem run_settledR_from_frame (tr : List Action) :
    ∀ st : State, ∀ p ∈ (run st tr).settledR,
      p ∈ st.settledR ∨ Action.frame (some p.1) p.2 ∈ tr := by
  induction tr with
  | nil => intro st p hp; exact Or.inl hp
  | cons a rest ih =>
      intro st p hp
      rcases ih (step st a) p hp with hin | hin
      · cases a with
        | register id => exact Or.inl hin
        | frame oid r =>
            cases oid with
            | none => exact Or.inl hin
            | some id =>
                by_cases hpidin : id ∈ st.pending
                · by_cases hset : st.isSettled id
                  · simp only [step, if_pos hpidin, if_pos hset] at hin
                    exact Or.inl hin
                  · simp only [step, if_pos hpidin, if_neg hset] at hin
                    rcases List.mem_append.mp hin with hin | hin
                    · exact Or.inl hin
                    · simp at hin
                      subst hin
                      exact Or.inr (List.mem_cons_self _ _)
                · simp only [step, if_neg hpidin] at hin
                  exact Or.inl hin
        | timeoutFire id =>
            by_cases ha : id ∈ st.armed
            · simp only [step, if_pos ha] at hin
              exact Or.inl hin
            · simp only [step, if_neg ha] at hin
              exact Or.inl hin
        | postFail id => exact Or.inl hin
      · exact Or.inr (List.mem_cons_of_mem a hin)

end Corr

namespace Session

theorem settle_absorb (st : Resources) (v : SettleVal) (h : st.settled = true) :
    settle st v = st := by
  simp [settle, h]

theorem runSettles_absorb (vs : List SettleVal) :
    ∀ st : Resources, st.settled = true → runSettles st vs = st := by
  induction vs with
  | nil => intro st _; rfl
  | cons v rest ih =>
      intro st h
      show runSettles (settle st v) rest = st
      rw [settle_absorb st v h, ih st h]

end Session

/-- Claim C1: for every run of the session state machine -- whatever sequence
of phases, error paths and timers ends up calling `settle`, in whatever order
-- the stream connection is closed exactly once and the attempt-level deadline
timer is cancelled exactly once, the caller's promise receives the first
settlement value, and at every point of the run at which the promise has been
settled, the close and the cancellation have already happened exactly once
(they precede the resolve/reject call). -/
theorem C1_settle_exactly_once (vs : List Session.SettleVal) (hne : vs ≠ []) :
    (Session.runSettles Session.resourcesInit vs).closeCount = 1 ∧
    (Session.runSettles Session.resourcesInit vs).clearCount = 1 ∧
    (Session.runSettles Session.resourcesInit vs).outcome = vs.head? ∧
    (∀ pre suf, vs = pre ++ suf →
      (Session.runSettles Session.resourcesInit pre).outcome.isSome →
        (Session.runSettles Session.resourcesInit pre).closeCount = 1 ∧
        (Session.runSettles Session.resourcesInit pre).clearCount = 1) := by
  have hfirst : ∀ v : Session.SettleVal,
      Session.settle Session.resourcesInit v =
        ⟨true, false, false, 1, 1, some v⟩ := by
    intro v
    simp [Session.settle, Session.resourcesInit]
  have hrun : ∀ (v : Session.SettleVal) (rest : List Session.SettleVal),
      Session.runSettles Session.resourcesInit (v :: rest) =
        ⟨true, false, false, 1, 1, some v⟩ := by
    intro v rest
    show Session.runSettles (Session.settle Session.resourcesInit v) rest = _
    rw [hfirst v, Session.runSettles_absorb rest _ rfl]
  cases vs with
  | nil => exact absurd rfl hne
  | cons v rest =>
      refine ⟨by rw [hrun v rest], by rw [hrun v rest], by rw [hrun v rest]; rfl, ?_⟩
      intro pre suf hsplit hsome
      cases pre with
      | nil =>
          simp [Session.runSettles, Session.resourcesInit] at hsome
      | cons p ps =>
          rw [hrun p ps]
          exact ⟨rfl, rfl⟩

/-- Concrete instance of C1: the attempt deadline fires first and a later
success path races in; the stream is closed once, the timer cancelled once,
and the promise keeps the first (rejecting) settlement. -/
theorem C1_settle_exactly_once_witness :
    (Session.runSettles Session.resourcesInit
        [.rejected "Session timeout".toList, .resolved (JVal.num 1)]).closeCount = 1 ∧
    (Session.runSettles Session.resourcesInit
        [.rejected "Session timeout".toList, .resolved (JVal.num 1)]).clearCount = 1 ∧
    (Session.runSettles Session.resourcesInit
        [.rejected "Session timeout".toList, .resolved (JVal.num 1)]).outcome =
      [Session.SettleVal.rejected "Session timeout".toList,
        .resolved (JVal.num 1)].head? ∧
    (∀ pre suf,
      [Session.SettleVal.rejected "Session timeout".toList,
        .resolved (JVal.num 1)] = pre ++ suf →
      (Session.runSettles Session.resourcesInit pre).outcome.isSome →
        (Session.runSettles Session.resourcesInit pre).closeCount = 1 ∧
        (Session.runSettles Session.resourcesInit pre).clearCount = 1) :=
  C1_settle_exactly_once
    [.rejected "Session timeout".toList, .resolved (JVal.num 1)]
    (List.cons_ne_nil _ _)

/-- Claim C5: for any valid interleaving of request registrations and incoming
response frames, the correlator resolves each pending request with its own
matching response exactly once (no id settles twice, and every effective
resolution's payload comes from a frame with that very id); resolution and
timeout are mutually exclusive (after a resolution the timeout for that id is
a no-op, and a frame for an id no longer pending -- e.g. already timed out --
is a no-op); and frames whose id matches no pending request cause no
resolution and no error (they leave the state entirely unchanged). -/
theorem C5_request_correlation (tr : List Corr.Action)
    (hv : Corr.validFrom Corr.init tr = true) :
    ((Corr.run Corr.init tr).settledR.map Prod.fst ++
        (Corr.run Corr.init tr).settledE).Nodup ∧
    (∀ p ∈ (Corr.run Corr.init tr).settledR, Corr.Action.frame (some p.1) p.2 ∈ tr) ∧
    (∀ id r, id ∈ (Corr.run Corr.init tr).pending →
      Corr.step (Corr.run Corr.init tr) (.frame (some id) r) =
        ⟨(Corr.run Corr.init tr).pending.erase id,
          (Corr.run Corr.init tr).armed.erase id,
          (Corr.run Corr.init tr).settledR ++ [(id, r)],
          (Corr.run Corr.init tr).settledE⟩) ∧
    (∀ id r, id ∉ (Corr.run Corr.init tr).pending →
      Corr.step (Corr.run Corr.init tr) (.frame (some id) r) = Corr.run Corr.init tr) ∧
    (∀ id, id ∈ (Corr.run Corr.init tr).settledR.map Prod.fst →
      Corr.step (Corr.run Corr.init tr) (.timeoutFire id) = Corr.run Corr.init tr) := by
  have hinv : Corr.Inv (Corr.run Corr.init tr) :=
    Corr.inv_run tr Corr.init Corr.inv_init hv
  refine ⟨hinv.once, ?_, ?_, ?_, ?_⟩
  · intro p hp
    rcases Corr.run_settledR_from_frame tr Corr.init p hp with hin | hin
    · simp [Corr.init] at hin
    · exact hin
  · intro id r hp
    have hset : ¬ (Corr.run Corr.init tr).isSettled id := hinv.fresh id hp
    simp [Corr.step, hp, hset]
  · intro id r hp
    simp [Corr.step, hp]
  · intro id hres
    have hset : (Corr.run Corr.init tr).isSettled id := Or.inl hres
    have hp : id ∉ (Corr.run Corr.init tr).pending := by
      intro hc
      exact hinv.fresh id hc hset
    have ha : id ∉ (Corr.run Corr.init tr).armed := hinv.pa ▸ hp
    simp [Corr.step, ha]

/-- Concrete instance of C5: two registered requests, an unmatched frame, the
matching responses (one arriving twice, the second delivery dropped), and a
late timeout firing for an already-resolved id. -/
theorem C5_request_correlation_witness :
    ((Corr.run Corr.init
        [.register 1, .frame (some 7) (JVal.num 9), .frame (some 1) (JVal.num 5),
          .register 2, .frame (some 1) (JVal.num 6), .timeoutFire 2,
          .frame (some 2) (JVal.null)]).settledR.map Prod.fst ++
      (Corr.run Corr.init
        [.register 1, .frame (some 7) (JVal.num 9), .frame (some 1) (JVal.num 5),
          .register 2, .frame (some 1) (JVal.num 6), .timeoutFire 2,
          .frame (some 2) (JVal.null)]).settledE).Nodup :=
  (C5_request_correlation
    [.register 1, .frame (some 7) (JVal.num 9), .frame (some 1) (JVal.num 5),
      .register 2, .frame (some 1) (JVal.num 6), .timeoutFire 2,
      .frame (some 2) (JVal.null)] (by decide)).1

/-- Concrete instance of C4: two frames delivered in three chunks whose
boundaries split lines mid-way, with a trailing partial line left in the
buffer. -/
theorem C4_frame_parsing_witness :
    (SSE.feedChunks SSE.parserInit
        ["event:endpoint\ndata:/mes".toList, "sage?id=7\n\nevent:message\nda".toList,
          "ta:pong\n\nda".toList]).core.events =
      [("endpoint".toList, "/message?id=7".toList), ("message".toList, "pong".toList)] ∧
      (SSE.feedChunks SSE.parserInit
        ["event:endpoint\ndata:/mes".toList, "sage?id=7\n\nevent:message\nda".toList,
          "ta:pong\n\nda".toList]).buffer = "da".toList :=
  C4_frame_parsing
    [("endpoint".toList, "/message?id=7".toList), ("message".toList, "pong".toList)]
    ["event:endpoint\ndata:/mes".toList, "sage?id=7\n\nevent:message\nda".toList,
      "ta:pong\n\nda".toList]
    "da".toList (by decide) (by decide) (by decide)

namespace Init

theorem delaySeq_lb (n : Nat) : 500 ≤ delaySeq n := by
  induction n with
  | zero => norm_num [delaySeq]
  | succ k ih =>
      simp only [delaySeq]
      refine le_min ?_ (by norm_num)
      calc (500 : ℚ) ≤ delaySeq k := ih
        _ ≤ delaySeq k * (3 / 2) := by nlinarith

theorem delaySeq_ub (n : Nat) : delaySeq n ≤ 3000 := by
  cases n with
  | zero => norm_num [delaySeq]
  | succ k => exact min_le_right _ _

theorem delaySeq_le_succ (n : Nat) : delaySeq n ≤ delaySeq (n + 1) := by
  simp only [delaySeq]
  refine le_min ?_ (delaySeq_ub n)
  have := delaySeq_lb n
  nlinarith

theorem delaySeq_mono : Monotone delaySeq :=
  monotone_nat_of_le_succ delaySeq_le_succ

end Init

/-- Joint invariant of a polling-loop run: every iteration is admitted only
strictly under the 20-second deadline; the i-th backoff wait is exactly the
i-th element of the delay sequence; every recorded error is
transport-classified; and a deadline failure throws the last recorded error
when any exists (only a run with no recorded error at all would throw the
literal fallback message). -/
theorem doInitLoop_spec (env : List (Init.BodyStep × ℚ)) :
    ∀ (now : ℚ) (k : Nat) (lastErr : Option (List Char)),
      (∀ m, lastErr = some m → Init.isTransportErr m = true) →
      (∀ t ∈ (Init.doInitLoop now (Init.delaySeq k) lastErr env).checks, t < 20000) ∧
      (∀ i, i < (Init.doInitLoop now (Init.delaySeq k) lastErr env).waits.length →
        (Init.doInitLoop now (Init.delaySeq k) lastErr env).waits[i]? =
          some (Init.delaySeq (k + i))) ∧
      (∀ e ∈ (Init.doInitLoop now (Init.delaySeq k) lastErr env).errs,
        Init.isTransportErr e = true) ∧
      (∀ m, (Init.doInitLoop now (Init.delaySeq k) lastErr env).result = .deadline m →
        (lastErr = none ∧ (Init.doInitLoop now (Init.delaySeq k) lastErr env).errs = [] ∧
            m = Init.neverReadyMsg) ∨
          ((lastErr.toList ++
              (Init.doInitLoop now (Init.delaySeq k) lastErr env).errs).getLast? = some m ∧
            Init.isTransportErr m = true)) := by
  induction env with
  | nil =>
      intro now k lastErr hl
      by_cases hg : now < 20000
      · refine ⟨?_, ?_, ?_, ?_⟩ <;> simp [Init.doInitLoop, hg]
      · cases lastErr with
        | none =>
            refine ⟨?_, ?_, ?_, ?_⟩ <;> simp [Init.doInitLoop, hg]
        | some m0 =>
            refine ⟨by simp [Init.doInitLoop, hg], by simp [Init.doInitLoop, hg],
              by simp [Init.doInitLoop, hg], ?_⟩
            intro m hm
            simp only [Init.doInitLoop, if_neg hg] at hm ⊢
            cases hm
            exact Or.inr ⟨by simp, hl m0 rfl⟩
  | cons hd rest ih =>
      intro now k lastErr hl
      obtain ⟨step, dur⟩ := hd
      by_cases hg : now < 20000
      · cases step with
        | bodyDone =>
            refine ⟨?_, ?_, ?_, ?_⟩ <;> simp [Init.doInitLoop, hg]
        | bodyErr m =>
            by_cases ht : Init.isTransportErr m
            · have hrec := ih (now + Init.delaySeq k + dur) (k + 1) (some m)
                (by intro e he; cases he; exact ht)
              have hunf :
                  Init.doInitLoop now (Init.delaySeq k) lastErr
                      ((Init.BodyStep.bodyErr m, dur) :: rest) =
                    ⟨now :: (Init.doInitLoop (now + Init.delaySeq k + dur)
                        (Init.delaySeq (k + 1)) (some m) rest).checks,
                      Init.delaySeq k :: (Init.doInitLoop (now + Init.delaySeq k + dur)
                        (Init.delaySeq (k + 1)) (some m) rest).waits,
                      m :: (Init.doInitLoop (now + Init.delaySeq k + dur)
                        (Init.delaySeq (k + 1)) (some m) rest).errs,
                      (Init.doInitLoop (now + Init.delaySeq k + dur)
                        (Init.delaySeq (k + 1)) (some m) rest).result⟩ := by
                simp only [Init.doInitLoop, if_pos hg, if_pos ht]
                rfl
              rw [hunf]
              refine ⟨?_, ?_, ?_, ?_⟩
              · intro t htm
                rcases List.mem_cons.mp htm with h1 | h2
                · exact h1 ▸ hg
                · exact hrec.1 t h2
              · intro i hlen
                cases i with
                | zero => simp
                | succ j =>
                    have hj := hrec.2.1 j (by simpa using hlen)
                    rw [show k + (j + 1) = k + 1 + j by omega]
                    simpa using hj
              · intro e he
                rcases List.mem_cons.mp he with h1 | h2
                · exact h1 ▸ ht
                · exact hrec.2.2.1 e h2
              · intro mm hmm
                rcases hrec.2.2.2 mm hmm with ⟨hcon, _, _⟩ | ⟨hlast, htr⟩
                · exact absurd hcon (by simp)
                · refine Or.inr ⟨?_, htr⟩
                  have : Option.toList (some m) ++
                      (Init.doInitLoop (now + Init.delaySeq k + dur)
                        (Init.delaySeq (k + 1)) (some m) rest).errs =
                      m :: (Init.doInitLoop (now + Init.delaySeq k + dur)
                        (Init.delaySeq (k + 1)) (some m) rest).errs := by simp
                  rw [this] at hlast
                  rw [List.getLast?_append_cons]
                  exact hlast
            · refine ⟨?_, ?_, ?_, ?_⟩ <;> simp [Init.doInitLoop, hg, ht]
      · cases lastErr with
        | none =>
            refine ⟨?_, ?_, ?_, ?_⟩ <;> simp [Init.doInitLoop, hg]
        | some m0 =>
            refine ⟨by simp [Init.doInitLoop, hg], by simp [Init.doInitLoop, hg],
              by simp [Init.doInitLoop, hg], ?_⟩
            intro m hm
            simp only [Init.doInitLoop, if_neg hg] at hm ⊢
            cases hm
            exact Or.inr ⟨by simp, hl m0 rfl⟩

/-- A deadline failure of the initialize loop always carries a
transient-classified message: either the last transport error (whose message
contains `No transport found` or `POST 400`) or the fallback message (which
contains `Transport never`). -/
theorem deadline_isTransient (env : List (Init.BodyStep × ℚ)) (m : List Char)
    (h : (Init.doInitLoop 0 500 none env).result = .deadline m) :
    Retry.isTransient m = true := by
  have hspec := doInitLoop_spec env 0 0 none (by intro e he; cases he)
  have h' : (Init.doInitLoop 0 (Init.delaySeq 0) none env).result = .deadline m := h
  rcases hspec.2.2.2 m h' with ⟨_, _, hm⟩ | ⟨_, htr⟩
  · subst hm
    decide
  · have h1 : containsL Init.noTransportPat m = true ∨
        containsL Init.post400Pat m = true := by
      simpa [Init.isTransportErr, Bool.or_eq_true] using htr
    rcases h1 with h1 | h1 <;> simp [Retry.isTransient, h1]

/-- Counterexample to claim C2 as stated: a session attempt that fails with a
protocol-level error response whose server-supplied message happens to
contain the substring `SSE` (here `MCP error -32000: SSE broken`) IS retried
-- the run consumes a second attempt (which here succeeds) after a 3000ms
delay -- because `mcpToolCall` classifies errors by substring matching on the
message, not by the protocol/transport distinction. -/
theorem C2_retry_classification_counterexample :
    Retry.mcpRun 0 3 [.err cexProtoMsg, .ok JVal.null] =
      ⟨.ok JVal.null, 2, [3000]⟩ := by
  have ht : Retry.isTransient cexProtoMsg = true := by decide
  norm_num [Retry.mcpRun, ht]

/-- Claim C2 amended: a protocol-error response whose combined message
`MCP error <code>: <message>` contains none of the transient patterns
(`No transport found`, `POST 400`, `SSE`, `Transport never`) never triggers a
whole-session retry -- the error propagates after exactly one attempt with no
inter-attempt delay; whereas an attempt that fails because the Initializing
deadline was exhausted by transport-not-ready errors does trigger a
whole-session retry whenever another attempt remains (the wrapper waits
3000ms and continues with the remaining attempts), and when no attempt
remains that deadline error is propagated instead. -/
theorem C2_retry_classification_amended :
    (∀ (code msg : List Char) (rest : List Retry.SessionOutcome) (maxR : Int),
      1 ≤ maxR →
      Retry.isTransient (Retry.protocolErrMsg code msg) = false →
      Retry.mcpRun 0 maxR (.err (Retry.protocolErrMsg code msg) :: rest) =
        ⟨.err (Retry.protocolErrMsg code msg), 1, []⟩) ∧
    (∀ (env : List (Init.BodyStep × ℚ)) (m : List Char)
        (rest : List Retry.SessionOutcome) (maxR : Int),
      (Init.doInitLoop 0 500 none env).result = .deadline m →
      2 ≤ maxR →
      Retry.mcpRun 0 maxR (.err m :: rest) =
        ⟨(Retry.mcpRun 1 maxR rest).result,
          (Retry.mcpRun 1 maxR rest).attemptsUsed + 1,
          3000 :: (Retry.mcpRun 1 maxR rest).delays⟩) ∧
    (∀ (env : List (Init.BodyStep × ℚ)) (m : List Char),
      (Init.doInitLoop 0 500 none env).result = .deadline m →
      Retry.mcpRun 0 1 [.err m] = ⟨.err m, 1, []⟩) := by
  refine ⟨?_, ?_, ?_⟩
  · intro code msg rest maxR h1 hnt
    simp [Retry.mcpRun, hnt]
    omega
  · intro env m rest maxR hdl h2
    have ht := deadline_isTransient env m hdl
    have hg : ((0 : Nat) : Int) < maxR := by omega
    have hg2 : ((0 : Nat) : Int) < maxR - 1 := by omega
    simp only [Retry.mcpRun, if_pos hg, ht, decide_eq_true hg2, Bool.and_self,
      if_pos]
    norm_num
  · intro env m hdl
    have hg : ((0 : Nat) : Int) < (1 : Int) := by decide
    have hg2 : ¬ ((0 : Nat) : Int) < (1 : Int) - 1 := by decide
    simp [Retry.mcpRun, hg, hg2]

/-- Concrete instance of the amended C2: a clean protocol error is not
retried, and a deadline-exhaustion transport error is retried (the second
attempt succeeding here). -/
theorem C2_retry_classification_witness :
    Retry.mcpRun 0 3
        [.err (Retry.protocolErrMsg "-32000".toList "bad key".toList)] =
      ⟨.err (Retry.protocolErrMsg "-32000".toList "bad key".toList), 1, []⟩ ∧
    Retry.mcpRun 0 2 [.err p400Msg, .ok (JVal.num 3)] =
      ⟨(Retry.mcpRun 1 2 [.ok (JVal.num 3)]).result,
        (Retry.mcpRun 1 2 [.ok (JVal.num 3)]).attemptsUsed + 1,
        3000 :: (Retry.mcpRun 1 2 [.ok (JVal.num 3)]).delays⟩ := by
  constructor
  · exact C2_retry_classification_amended.1 "-32000".toList "bad key".toList []
      3 (by omega) (by decide)
  · refine C2_retry_classification_amended.2.1
      [(Init.BodyStep.bodyErr p400Msg, 25000)] p400Msg [.ok (JVal.num 3)] 2
      ?_ (by omega)
    have ht : Init.isTransportErr p400Msg = true := by decide
    norm_num [Init.doInitLoop, ht]

/-- A transiently-failing attempt with attempts remaining: the wrapper records
the `3000 * (attempt + 1)` delay and continues with a brand-new session run of
the remaining environment. -/
theorem mcpRun_transient_step (m : List Char) (rest : List Retry.SessionOutcome)
    (a : Nat) (maxR : Int) (ht : Retry.isTransient m = true)
    (hrem : (a : Int) < maxR - 1) :
    Retry.mcpRun a maxR (.err m :: rest) =
      ⟨(Retry.mcpRun (a + 1) maxR rest).result,
        (Retry.mcpRun (a + 1) maxR rest).attemptsUsed + 1,
        (3000 * ((a : ℚ) + 1)) :: (Retry.mcpRun (a + 1) maxR rest).delays⟩ := by
  have hg : (a : Int) < maxR := by omega
  simp only [Retry.mcpRun, if_pos hg, ht, decide_eq_true hrem, Bool.and_self, if_pos]

/-- A failing attempt that is non-transient, or out of remaining attempts:
the error is rethrown unchanged with no further attempt and no delay. -/
theorem mcpRun_stop (m : List Char) (rest : List Retry.SessionOutcome)
    (a : Nat) (maxR : Int) (hg : (a : Int) < maxR)
    (hstop : Retry.isTransient m = false ∨ ¬ ((a : Int) < maxR - 1)) :
    Retry.mcpRun a maxR (.err m :: rest) = ⟨.err m, 1, []⟩ := by
  rcases hstop with hnt | hna
  · simp [Retry.mcpRun, hg, hnt]
  · simp [Retry.mcpRun, hg, decide_eq_false hna]

/-- Claim C6: a transiently-failing attempt with attempts remaining is retried
after exactly `3000 * (attemptIndex + 1)` ms by a brand-new session run that
carries nothing over (the continuation is just the wrapper run on the
remaining attempt environment); a non-transient failure, or an exhausted
attempt budget, propagates the last error to the caller unchanged; and with 3
maximum attempts all failing transiently the run fails with the third error
after exactly 3 attempts and inter-attempt delays of exactly 3000ms and
6000ms. -/
theorem C6_retry_backoff :
    (∀ (m : List Char) (rest : List Retry.SessionOutcome) (a : Nat) (maxR : Int),
      Retry.isTransient m = true → (a : Int) < maxR - 1 →
      Retry.mcpRun a maxR (.err m :: rest) =
        ⟨(Retry.mcpRun (a + 1) maxR rest).result,
          (Retry.mcpRun (a + 1) maxR rest).attemptsUsed + 1,
          (3000 * ((a : ℚ) + 1)) :: (Retry.mcpRun (a + 1) maxR rest).delays⟩) ∧
    (∀ (m : List Char) (rest : List Retry.SessionOutcome) (a : Nat) (maxR : Int),
      (a : Int) < maxR →
      (Retry.isTransient m = false ∨ ¬ ((a : Int) < maxR - 1)) →
      Retry.mcpRun a maxR (.err m :: rest) = ⟨.err m, 1, []⟩) ∧
    (∀ m1 m2 m3 : List Char,
      Retry.isTransient m1 = true → Retry.isTransient m2 = true →
      Retry.isTransient m3 = true →
      Retry.mcpRun 0 3 [.err m1, .err m2, .err m3] =
        ⟨.err m3, 3, [3000, 6000]⟩) := by
  refine ⟨mcpRun_transient_step, mcpRun_stop, ?_⟩
  intro m1 m2 m3 h1 h2 h3
  rw [mcpRun_transient_step m1 [.err m2, .err m3] 0 3 h1 (by decide),
    mcpRun_transient_step m2 [.err m3] 1 3 h2 (by decide),
    mcpRun_stop m3 [] 2 3 (by decide) (Or.inr (by decide))]
  norm_num

/-- Concrete instance of C6: three session attempts all failing with
transport-classified messages under a 3-attempt budget. -/
theorem C6_retry_backoff_witness :
    Retry.mcpRun 0 3
        [.err p400Msg, .err p400Msg, .err p400Msg] =
      ⟨.err p400Msg, 3, [3000, 6000]⟩ :=
  C6_retry_backoff.2.2 p400Msg p400Msg p400Msg (by decide) (by decide) (by decide)

/-- Claim C10: calling the retry wrapper with a maximum-attempt count of zero
or less performs no session attempt at all (no outcome is consumed, no delay
is awaited) and the async function resolves successfully with `undefined`
rather than raising an error. -/
theorem C10_nonpositive_max_attempts (maxR : Int) (hmax : maxR ≤ 0)
    (outs : List Retry.SessionOutcome) :
    Retry.mcpRun 0 maxR outs = ⟨.undefined, 0, []⟩ := by
  have hg : ¬ ((0 : Nat) : Int) < maxR := by omega
  cases outs <;> simp only [Retry.mcpRun, if_neg hg]

/-- Concrete instance of C10: zero max attempts with a would-be successful
session available -- the session is never attempted. -/
theorem C10_nonpositive_max_attempts_witness :
    Retry.mcpRun 0 0 [.ok (JVal.num 1)] = ⟨.undefined, 0, []⟩ :=
  C10_nonpositive_max_attempts 0 (by decide) [.ok (JVal.num 1)]

/-- Counterexample to claim C3 as stated: when the 20-second deadline of the
readiness-polling loop is exceeded (here by a single transport-not-ready
attempt whose round-trip takes 25 seconds), `doInitialize` does not fail with
a "transport never became ready" error carrying the last observed error as
context -- it rethrows the last observed error itself (`throw lastErr || ...`,
line 216): the failure is `POST 400: Bad Request`, whose message does not
mention "never became ready" at all. -/
theorem C3_backoff_counterexample :
    (Init.doInitLoop 0 500 none [(.bodyErr p400Msg, 25000)]).result =
      .deadline p400Msg ∧
    containsL "never became ready".toList p400Msg = false ∧
    p400Msg ≠ Init.neverReadyMsg := by
  refine ⟨?_, by decide, by decide⟩
  have ht : Init.isTransportErr p400Msg = true := by decide
  norm_num [Init.doInitLoop, ht]

/-- Claim C3 amended: the readiness-polling loop admits an iteration only
strictly within its configured 20-second deadline; the successive backoff
delays are exactly the sequence starting at 500ms and multiplying by 1.5 up
to the 3000ms cap, hence non-decreasing and bounded between 500ms and 3000ms;
and when the deadline is exceeded the attempt fails by rethrowing the last
observed transport-not-ready error itself (a message containing
`No transport found` or `POST 400`), with a `Transport never became ready`
error only in the case where no error was ever observed. -/
theorem C3_backoff_bound_amended (env : List (Init.BodyStep × ℚ)) :
    (∀ t ∈ (Init.doInitLoop 0 500 none env).checks, t < 20000) ∧
    (∀ i, i < (Init.doInitLoop 0 500 none env).waits.length →
      (Init.doInitLoop 0 500 none env).waits[i]? = some (Init.delaySeq i)) ∧
    (∀ i j (hi : i < (Init.doInitLoop 0 500 none env).waits.length)
        (hj : j < (Init.doInitLoop 0 500 none env).waits.length), i ≤ j →
      (Init.doInitLoop 0 500 none env).waits[i] ≤
        (Init.doInitLoop 0 500 none env).waits[j]) ∧
    (∀ w ∈ (Init.doInitLoop 0 500 none env).waits, 500 ≤ w ∧ w ≤ 3000) ∧
    (∀ m, (Init.doInitLoop 0 500 none env).result = .deadline m →
      ((Init.doInitLoop 0 500 none env).errs = [] ∧ m = Init.neverReadyMsg) ∨
        ((Init.doInitLoop 0 500 none env).errs.getLast? = some m ∧
          Init.isTransportErr m = true)) := by
  have hspec := doInitLoop_spec env 0 0 none (by intro e he; cases he)
  simp only [show Init.delaySeq 0 = (500 : ℚ) from rfl, Nat.zero_add] at hspec
  refine ⟨hspec.1, hspec.2.1, ?_, ?_, ?_⟩
  · intro i j hi hj hij
    have h1 := hspec.2.1 i hi
    have h2 := hspec.2.1 j hj
    rw [List.getElem?_eq_getElem hi] at h1
    rw [List.getElem?_eq_getElem hj] at h2
    rw [Option.some_inj.mp h1, Option.some_inj.mp h2]
    exact Init.delaySeq_mono hij
  · intro w hw
    obtain ⟨i, hi, hw2⟩ := List.mem_iff_getElem.mp hw
    have h1 := hspec.2.1 i hi
    rw [List.getElem?_eq_getElem hi] at h1
    rw [← hw2, Option.some_inj.mp h1]
    exact ⟨Init.delaySeq_lb i, Init.delaySeq_ub i⟩
  · intro m hm
    rcases hspec.2.2.2 m hm with ⟨_, he, hmsg⟩ | ⟨hlast, htr⟩
    · exact Or.inl ⟨he, hmsg⟩
    · refine Or.inr ⟨?_, htr⟩
      simpa using hlast

/-- Concrete instance of the amended C3: a deadline-exceeded run whose thrown
error is the last observed transport error. -/
theorem C3_backoff_bound_witness :
    ((Init.doInitLoop 0 500 none [(.bodyErr p400Msg, 25000)]).errs = [] ∧
        p400Msg = Init.neverReadyMsg) ∨
      ((Init.doInitLoop 0 500 none [(.bodyErr p400Msg, 25000)]).errs.getLast? =
          some p400Msg ∧
        Init.isTransportErr p400Msg = true) :=
  (C3_backoff_bound_amended [(.bodyErr p400Msg, 25000)]).2.2.2.2 p400Msg
    (by
      have ht : Init.isTransportErr p400Msg = true := by decide
      norm_num [Init.doInitLoop, ht])

/-- Claim C7: on a successful tool-call response, the extracted result is the
JSON-parsed value of the first text-typed entry of the response's `content`
list when that text parses as JSON; the wrapper object `{data: <text>}` when
it does not parse; the raw `result` object when there is no content list; and
the whole response when even the `result` object is absent. -/
theorem C7_result_extraction :
    (∀ (parse : List Char → Option JVal) (resp rr : JVal) (es : List JVal)
        (tc : JVal) (s : List Char) (j : JVal),
      Extract.jsGet resp Extract.resultKey = rr →
      Extract.nullish rr = false →
      Extract.jsGet rr Extract.contentKey = .arr es →
      Extract.findText es = some tc →
      Extract.jsGet tc Extract.textKey = .str s →
      parse s = some j →
      Extract.extractResult parse resp = j) ∧
    (∀ (parse : List Char → Option JVal) (resp rr : JVal) (es : List JVal)
        (tc : JVal) (s : List Char),
      Extract.jsGet resp Extract.resultKey = rr →
      Extract.nullish rr = false →
      Extract.jsGet rr Extract.contentKey = .arr es →
      Extract.findText es = some tc →
      Extract.jsGet tc Extract.textKey = .str s →
      parse s = none →
      Extract.extractResult parse resp = .obj [(Extract.dataKey, .str s)]) ∧
    (∀ (parse : List Char → Option JVal) (resp : JVal)
        (fs : List (List Char × JVal)),
      Extract.jsGet resp Extract.resultKey = .obj fs →
      Extract.truthy (Extract.jsGet (.obj fs) Extract.contentKey) = false →
      Extract.extractResult parse resp = .obj fs) ∧
    (∀ (parse : List Char → Option JVal) (resp : JVal),
      Extract.jsGet resp Extract.resultKey = .undefined →
      Extract.extractResult parse resp = resp) := by
  refine ⟨?_, ?_, ?_, ?_⟩
  · intro parse resp rr es tc s j h1 h2 h3 h4 h5 h6
    simp [Extract.extractResult, h1, h2, h3, h4, h5, h6, Extract.truthy]
  · intro parse resp rr es tc s h1 h2 h3 h4 h5 h6
    simp [Extract.extractResult, h1, h2, h3, h4, h5, h6, Extract.truthy]
  · intro parse resp fs h1 h2
    have htr : Extract.truthy (JVal.obj fs) = true := rfl
    simp [Extract.extractResult, h1, h2, Extract.nullish, htr]
  · intro parse resp h1
    have htr : Extract.truthy JVal.undefined = false := rfl
    have hnl : Extract.nullish JVal.undefined = true := rfl
    simp [Extract.extractResult, h1, htr, hnl]

/-- Concrete instances of C7: a parsing text payload, a non-parsing text
payload (scenario 3 of the spec, giving `{data: <text>}`), a response with a
result object but no content list, and a response with no result object at
all. -/
theorem C7_result_extraction_witness :
    Extract.extractResult (fun _ => some (JVal.num 1))
        (.obj [(Extract.resultKey,
          .obj [(Extract.contentKey,
            .arr [.obj [(Extract.typeKey, .str Extract.textKey),
              (Extract.textKey, .str ['1'])]])])]) = JVal.num 1 ∧
    Extract.extractResult (fun _ => none)
        (.obj [(Extract.resultKey,
          .obj [(Extract.contentKey,
            .arr [.obj [(Extract.typeKey, .str Extract.textKey),
              (Extract.textKey, .str "not json".toList)]])])]) =
      .obj [(Extract.dataKey, .str "not json".toList)] ∧
    Extract.extractResult (fun _ => none)
        (.obj [(Extract.resultKey, .obj [(Extract.dataKey, .arr [])])]) =
      .obj [(Extract.dataKey, .arr [])] ∧
    Extract.extractResult (fun _ => none) (.obj [(Extract.typeKey, .str ['x'])]) =
      .obj [(Extract.typeKey, .str ['x'])] := by
  refine ⟨?_, ?_, ?_, ?_⟩
  · exact C7_result_extraction.1 (fun _ => some (JVal.num 1)) _
      (.obj [(Extract.contentKey,
        .arr [.obj [(Extract.typeKey, .str Extract.textKey),
          (Extract.textKey, .str ['1'])]])])
      [.obj [(Extract.typeKey, .str Extract.textKey), (Extract.textKey, .str ['1'])]]
      (.obj [(Extract.typeKey, .str Extract.textKey), (Extract.textKey, .str ['1'])])
      ['1'] (JVal.num 1) rfl rfl rfl rfl rfl
      rfl
  · exact C7_result_extraction.2.1 (fun _ => none) _
      (.obj [(Extract.contentKey,
        .arr [.obj [(Extract.typeKey, .str Extract.textKey),
          (Extract.textKey, .str "not json".toList)]])])
      [.obj [(Extract.typeKey, .str Extract.textKey),
        (Extract.textKey, .str "not json".toList)]]
      (.obj [(Extract.typeKey, .str Extract.textKey),
        (Extract.textKey, .str "not json".toList)])
      "not json".toList rfl rfl rfl rfl rfl
      rfl
  · exact C7_result_extraction.2.2.1 (fun _ => none) _
      [(Extract.dataKey, .arr [])] rfl rfl
  · exact C7_result_extraction.2.2.2 (fun _ => none) _ rfl

/-- Claim C8: for invocations submitted in order, each invocation's session
work begins only after the previous invocation has fully settled -- the event
trace is exactly `enter A, settle A, enter B, settle B, ...` in submission
order -- and a failing invocation does not abort queued ones: every invocation
receives a response, namely the result or 500-error of its own handler. -/
theorem C8_call_serialization (call : Nat → Retry.SessionOutcome)
    (reqs : List Nat) :
    (Queue.runChain call true reqs).1 =
      reqs.flatMap (fun r => [Queue.Ev.enter r, Queue.Ev.settle r]) ∧
    (Queue.runChain call true reqs).2 =
      reqs.map (fun r => some (Queue.handle call r)) := by
  induction reqs with
  | nil => exact ⟨rfl, rfl⟩
  | cons r rs ih =>
      constructor
      · show Queue.Ev.enter r :: Queue.Ev.settle r :: (Queue.runChain call true rs).1 = _
        rw [ih.1]
        simp
      · show some (Queue.handle call r) :: (Queue.runChain call true rs).2 = _
        rw [ih.2]
        simp

/-- Counterexample to claim C9 as stated: the bearer credential is NOT read
once per attempt at connection time -- `postRpc` re-reads the `API_KEY`
global on every POST.  In a run where the attempt connects under key `old`
and a reconfigure installs key `new` before the attempt's next POST, the
in-flight attempt's POST carries `new`, not the credential it started with. -/
theorem C9_credential_read_once_counterexample :
    Cred.runCreds ['o', 'l', 'd']
        [.connectFetch, .reconnect ['n', 'e', 'w'], .postFetch] =
      [.connectCred ['o', 'l', 'd'], .postCred ['n', 'e', 'w']] ∧
    (['n', 'e', 'w'] : List Char) ≠ ['o', 'l', 'd'] := by
  exact ⟨rfl, by decide⟩

/-- Claim C9 amended: the credential global is read at every fetch, not once
per attempt: a run splits around a reconfigure installing a non-empty key
`k2` so that every fetch before it (including an attempt's connect) uses the
old value and every fetch after it -- the same attempt's later POSTs as well
as all future attempts -- uses `k2`; each individual fetch simply reports the
current global. -/
theorem C9_credential_amended (k1 k2 : List Char) (pre suf : List Cred.Action) :
    (Cred.runCreds k1 (pre ++ suf) =
      Cred.runCreds k1 pre ++ Cred.runCreds (Cred.keyAfter k1 pre) suf) ∧
    (Cred.keyAfter k1 (pre ++ [.reconnect k2]) =
      if k2 = [] then Cred.keyAfter k1 pre else k2) ∧
    (Cred.runCreds k1 [.connectFetch] = [.connectCred k1]) ∧
    (Cred.runCreds k1 [.postFetch] = [.postCred k1]) := by
  refine ⟨?_, ?_, rfl, rfl⟩
  · induction pre generalizing k1 with
    | nil => rfl
    | cons a rest ih =>
        show (match (Cred.keyStep k1 a).2 with
            | some u => [u] | none => []) ++
            Cred.runCreds (Cred.keyStep k1 a).1 (rest ++ suf) = _
        rw [ih (Cred.keyStep k1 a).1]
        simp [Cred.runCreds, Cred.keyAfter]
  · induction pre generalizing k1 with
    | nil => rfl
    | cons a rest ih =>
        show Cred.keyAfter (Cred.keyStep k1 a).1 (rest ++ [.reconnect k2]) = _
        rw [ih (Cred.keyStep k1 a).1]
        rfl
